import Mathlib

/-!
Verification of the documentation-generation utility `scripts/generate_docs.py`
of the solana-borrow-lending repository.

The development shallowly embeds the two engines of the script:

* the **extraction engine** (`RustDocExtractor`): the regex-driven scans
  `_extract_structs`, `_extract_functions`, `_extract_fields`,
  `_extract_parameters`, `_find_size_calculation` and the comment cleaner
  `_clean_doc_comment`;
* the **generation engine** (`DocumentationGenerator`): the four renderers
  `generate_zero_copy_reference`, `generate_api_structures`,
  `generate_function_reference` and `generate_index`.

Machine strings are modeled as `List Char` (`Str`) inside the extraction
engine and as Lean `String` in the record types and renderers.  Python
operations that carry a genuine precondition (the tuple destructuring of
`param.split(':', 1)`, the slice `line[3:]` whose meaning depends on the
marker guard) run in an `Except` monad so that "never throws" claims are
actual theorems rather than artifacts of Lean totality.

The regular expressions of the source are transliterated component by
component.  For the patterns compiled without `re.DOTALL`
(`func_pattern`, `field_pattern`) every adjacent pair of subpatterns has
disjoint first-character sets except where noted, so greedy matching is
deterministic and is implemented by `takeWhile`-style scanners; the two
places where Python would backtrack (a `\s*` directly followed by a
character class containing whitespace) are implemented with the same
preference order Python uses.  The struct pattern is compiled with
`re.DOTALL`, where `(?:///.*\n)*` and `(?:#\[.*\]\s*)*` genuinely
backtrack across the whole file; their candidate end positions are
enumerated in Python's depth-first preference order (greedy, longest
first) and the remainder of the pattern is tried against each candidate.
-/

namespace GenerateDocs

open scoped List

/-- Character lists standing for Python `str` values. -/
abbrev Str := List Char

/-- Python's whitespace class, as used by `\s` in the regexes and by
`str.strip()`; the scanned sources are ASCII so the ASCII portion of the
class is the relevant one. -/
def isPySpace (c : Char) : Bool :=
  c = ' ' || c = '\t' || c = '\n' || c = '\r' || c = '\x0b' || c = '\x0c'

/-- Python's word class `\w` (ASCII portion: letters, digits, underscore). -/
def isWordChar (c : Char) : Bool :=
  c.isAlpha || c.isDigit || c = '_'

/-- String literal to character list, for writing scanner tokens. -/
def lit (s : String) : Str := s.toList

/-- Drop the longest suffix whose characters satisfy `p`. -/
def dropRightWhile (p : Char → Bool) (s : Str) : Str :=
  (s.reverse.dropWhile p).reverse

/-- Python `str.strip()`: remove leading and trailing whitespace. -/
def pyStrip (s : Str) : Str :=
  dropRightWhile isPySpace (s.dropWhile isPySpace)

/-- Python `str.rstrip(',')`: remove trailing commas. -/
def rstripComma (s : Str) : Str :=
  dropRightWhile (fun c => c = ',') s

/-- Python `s.split('\n')`: split at every newline; the result is never
empty (splitting the empty string yields one empty piece). -/
def splitNl : Str → List Str
  | [] => [[]]
  | c :: t =>
    if c = '\n' then [] :: splitNl t
    else
      match splitNl t with
      | [] => [[c]]
      | l :: ls => (c :: l) :: ls

/-- Python `'\n'.join(lines)`. -/
def joinNl : List Str → Str
  | [] => []
  | [l] => l
  | l :: ls => l ++ '\n' :: joinNl ls

/-- Python `line[n:]`.  The slice is meaningful for the cleaner only when
the marker guard has established that the line is at least `n` characters
long, so the embedding checks the precondition explicitly. -/
def sliceFrom (n : Nat) (s : Str) : Except String Str :=
  if n ≤ s.length then .ok (s.drop n) else .error "slice shorter than guard assumed"

/-- One iteration of the loop body of `_clean_doc_comment` (lines 159-164
of the source): strip the line, keep it with its `///` or `//!` leader
removed, drop it otherwise. -/
def cleanLine (line : Str) : Except String (Option Str) := do
  let l := pyStrip line
  if (lit "///").isPrefixOf l then
    let r ← sliceFrom 3 l
    return some (pyStrip r)
  else if (lit "//!").isPrefixOf l then
    let r ← sliceFrom 3 l
    return some (pyStrip r)
  else
    return none

/-- The loop of `_clean_doc_comment` over all lines, collecting the kept
cleaned lines in order. -/
def cleanLines : List Str → Except String (List Str)
  | [] => .ok []
  | l :: ls => do
    let r ← cleanLine l
    let rest ← cleanLines ls
    match r with
    | some cl => .ok (cl :: rest)
    | none => .ok rest

/-- `_clean_doc_comment` (source lines 151-166): on empty input return the
empty string, otherwise strip the block, split it into lines, clean each
line, and join the kept lines with newlines. -/
def clean_doc_comment (doc_text : Str) : Except String Str := do
  if doc_text = [] then
    return []
  let cleaned ← cleanLines (splitNl (pyStrip doc_text))
  return joinNl cleaned

/-- Whether a stripped line carries one of the two recognized doc-comment
leaders. -/
def hasLeader (l : Str) : Bool :=
  (lit "///").isPrefixOf l || (lit "//!").isPrefixOf l

/-! ## Parameter extraction (`_extract_parameters`, source lines 188-213) -/

/-- Python `s.split(',')`: split at every comma. -/
def splitComma : Str → List Str
  | [] => [[]]
  | c :: t =>
    if c = ',' then [] :: splitComma t
    else
      match splitComma t with
      | [] => [[c]]
      | l :: ls => (c :: l) :: ls

/-- Python `s.split(':', 1)`: split at the first colon only, giving one or
two pieces. -/
def splitColonOnce : Str → List Str
  | [] => [[]]
  | c :: t =>
    if c = ':' then [[], t]
    else
      match splitColonOnce t with
      | [] => [[c]]
      | l :: ls => (c :: l) :: ls

/-- Python tuple unpacking `name_part, type_part = parts`: raises unless
there are exactly two pieces. -/
def destructure2 (parts : List Str) : Except String (Str × Str) :=
  match parts with
  | [a, b] => .ok (a, b)
  | _ => .error "unpacking needs exactly two values"

/-- Loop body of `_extract_parameters` for one comma-separated piece:
pieces without a colon contribute nothing; otherwise split at the first
colon, strip both sides, and strip a leading `mut ` marker and then a
leading `&` marker from the name. -/
def processParam (param0 : Str) : Except String (Option (Str × Str)) := do
  let param := pyStrip param0
  if param.contains ':' then
    let (name_part, type_part) ← destructure2 (splitColonOnce param)
    let name := pyStrip name_part
    let param_type := pyStrip type_part
    let name ← if (lit "mut ").isPrefixOf name then sliceFrom 4 name else pure name
    let name ← if (lit "&").isPrefixOf name then sliceFrom 1 name else pure name
    return some (name, param_type)
  else
    return none

/-- The loop of `_extract_parameters` over all comma-separated pieces. -/
def processParams : List Str → Except String (List (Str × Str))
  | [] => .ok []
  | p :: ps => do
    let r ← processParam p
    let rest ← processParams ps
    match r with
    | some pr => .ok (pr :: rest)
    | none => .ok rest

/-- `_extract_parameters` (source lines 188-213). -/
def extract_parameters (params_text : Str) : Except String (List (Str × Str)) := do
  if pyStrip params_text = [] then
    return []
  processParams (splitComma params_text)

/-! ## Shared scanner pieces for the non-DOTALL patterns

`func_pattern` and `field_pattern` are compiled with `re.MULTILINE` only,
so `.` does not cross newlines and the doc-comment prefix
`(?:///.*\n)*` is a deterministic greedy scan. -/

/-- Greedy match of `(?:///.*\n)*`: as many complete `///`-led lines as
possible; a final `///` line without a terminating newline is not part of
the group.  Returns the matched text and the rest. -/
def pDocLines : Nat → Str → Str × Str
  | 0, s => ([], s)
  | fuel + 1, s =>
    if (lit "///").isPrefixOf s then
      let line := s.takeWhile (fun c => !(c = '\n'))
      match s.drop line.length with
      | '\n' :: r2 =>
        let (d, r3) := pDocLines fuel r2
        (line ++ '\n' :: d, r3)
      | _ => ([], s)
    else ([], s)

/-- Greedy match of the optional generic suffix `(?:<[^>]*>)?`: if the
bracketed form cannot be completed the group matches the empty string. -/
def matchOptGeneric (s : Str) : Str :=
  match s with
  | '<' :: t =>
    let g := t.takeWhile (fun c => !(c = '>'))
    match t.drop g.length with
    | '>' :: r => r
    | _ => s
  | _ => s

/-! ## Function extraction (`_extract_functions`, source lines 108-149) -/

/-- Character class `[^{;]` of the return-type group. -/
def pRet (c : Char) : Bool := !(c = '{' || c = ';')

/-- Raw captures of one `func_pattern` match. -/
structure FuncRaw where
  doc : Str
  name : Str
  params : Str
  ret : Option Str
  is_public : Bool
deriving Repr, DecidableEq

/-- Tail of `func_pattern` after the closing parenthesis and the
following `\s*`: the optional `->\s*(?P<return>[^{;]+)` group followed by
`\s*[{;]`.  The class `[^{;]` contains every whitespace character, so when
the greedy `\s*` after the arrow leaves the class with nothing to match
Python backs off one whitespace character, which then becomes the whole
return group. -/
def matchFuncTail (r13 : Str) : Option (Option Str × Str) :=
  match r13 with
  | '-' :: '>' :: r14 =>
    let ws1 := r14.takeWhile isPySpace
    let r15 := r14.drop ws1.length
    let ret1 := r15.takeWhile pRet
    match r15.drop ret1.length with
    | _ :: r17 =>
      if ret1.isEmpty then
        match ws1.reverse with
        | c :: _ => some (some [c], r17)
        | [] => none
      else some (some ret1, r17)
    | [] => none
  | b :: r17 => if b = '{' || b = ';' then some (none, r17) else none
  | [] => none

/-- One attempt of `func_pattern` at the head of `s`: doc-comment run,
optional `pub\s+` visibility, `fn\s+`, name, optional generic suffix,
parenthesized parameter text, then the return/terminator tail.  Returns
the captures and the rest of the text after the match. -/
def tryMatchFunc (fuel : Nat) (s : Str) : Option (FuncRaw × Str) :=
  let (doc, r1) := pDocLines fuel s
  let r2 := r1.dropWhile isPySpace
  let vis : Bool × Str :=
    if (lit "pub").isPrefixOf r2 then
      let r := r2.drop 3
      let w := r.takeWhile isPySpace
      if w.isEmpty then (false, r2) else (true, r.drop w.length)
    else (false, r2)
  let isPub := vis.1
  let r3 := vis.2
  if (lit "fn").isPrefixOf r3 then
    let r4 := r3.drop 2
    let w1 := r4.takeWhile isPySpace
    if w1.isEmpty then none else
    let r5 := r4.drop w1.length
    let name := r5.takeWhile isWordChar
    if name = [] then none else
    let r6 := (r5.drop name.length).dropWhile isPySpace
    let r7 := (matchOptGeneric r6).dropWhile isPySpace
    match r7 with
    | '(' :: r10 =>
      let params := r10.takeWhile (fun c => !(c = ')'))
      match r10.drop params.length with
      | ')' :: r12 =>
        match matchFuncTail (r12.dropWhile isPySpace) with
        | some (ret, rest) =>
          some ({ doc := doc, name := name, params := params,
                  ret := ret, is_public := isPub }, rest)
        | none => none
      | _ => none
    | _ => none
  else none

/-- `re.finditer` over `func_pattern`: try each start position from left
to right, emit non-overlapping matches, and record the line number of
each match start (newlines seen so far plus one). -/
def scanFunc : Nat → Str → Nat → List (FuncRaw × Nat)
  | 0, _, _ => []
  | fuel + 1, s, nl =>
    match tryMatchFunc (s.length + 1) s with
    | some (raw, rest) =>
      let consumed := s.take (s.length - rest.length)
      (raw, nl + 1) :: scanFunc fuel rest (nl + consumed.count '\n')
    | none =>
      match s with
      | [] => []
      | c :: t => scanFunc fuel t (nl + if c = '\n' then 1 else 0)

/-- `FunctionInfo` (source lines 31-41). -/
structure FunctionInfo where
  name : String
  doc_comment : String
  signature : String
  file_path : String
  line_number : Nat
  is_public : Bool
  parameters : List (String × String)
  return_type : String
deriving Repr, DecidableEq

/-- Build one `FunctionInfo` from the raw captures (the loop body of
`_extract_functions`, source lines 122-149). -/
def mkFunctionInfo (file_path : String) (raw : FuncRaw) (line : Nat) :
    Except String FunctionInfo := do
  let doc ← clean_doc_comment raw.doc
  let retRaw := match raw.ret with
    | none => lit "()"
    | some r => r
  let ps ← extract_parameters raw.params
  return {
    name := ⟨raw.name⟩
    doc_comment := ⟨doc⟩
    signature := ⟨lit "fn " ++ raw.name ++ lit "(" ++ raw.params ++ lit ") -> "
                  ++ pyStrip retRaw⟩
    file_path := file_path
    line_number := line
    is_public := raw.is_public
    parameters := ps.map (fun p => (⟨p.1⟩, ⟨p.2⟩))
    return_type := ⟨pyStrip retRaw⟩ }

/-- The record-building loops of the extractor: one record appended per
raw match, propagating the first failure. -/
def mapME {α β : Type} (g : α → Except String β) : List α → Except String (List β)
  | [] => .ok []
  | x :: xs => do
    let y ← g x
    let ys ← mapME g xs
    return y :: ys

/-- `_extract_functions` (source lines 108-149): scan the file text and
build the records, with the extractor's relative file path supplied by
the traversal as in spec section 4.1. -/
def extract_functions (content : Str) (file_path : String) :
    Except String (List FunctionInfo) :=
  mapME (fun rl => mkFunctionInfo file_path rl.1 rl.2)
    (scanFunc (content.length + 1) content 0)

/-! ## Field extraction (`_extract_fields`, source lines 168-186) -/

/-- Character class `[^,\n]` of the field-type group. -/
def pTy (c : Char) : Bool := !(c = ',' || c = '\n')

/-- One attempt of `field_pattern` at the head of `s`: doc-comment run,
`pub\s+`, name, `\s*:\s*`, then the type group `[^,\n]+`.  The type class
contains every whitespace character except the newline, so when the
greedy `\s*` after the colon leaves the class with nothing to match
Python backs off to the last whitespace character that is not a newline,
which then becomes the whole type group (and the match ends inside the
whitespace run). -/
def tryMatchField (fuel : Nat) (s : Str) : Option ((Str × Str × Str) × Str) :=
  let (doc, r1) := pDocLines fuel s
  let r2 := r1.dropWhile isPySpace
  if (lit "pub").isPrefixOf r2 then
    let r3 := r2.drop 3
    let w := r3.takeWhile isPySpace
    if w.isEmpty then none else
    let r4 := r3.drop w.length
    let name := r4.takeWhile isWordChar
    if name = [] then none else
    let r5 := (r4.drop name.length).dropWhile isPySpace
    match r5 with
    | ':' :: r6 =>
      let ws1 := r6.takeWhile isPySpace
      let r7 := r6.drop ws1.length
      let ty1 := r7.takeWhile pTy
      if ty1.isEmpty then
        let bad := ws1.reverse.takeWhile (fun c => !(pTy c))
        match ws1.reverse.dropWhile (fun c => !(pTy c)) with
        | c :: _ => some ((doc, name, [c]), bad.reverse ++ r7)
        | [] => none
      else some ((doc, name, ty1), r7.drop ty1.length)
    | _ => none
  else none

/-- `re.finditer` over `field_pattern`. -/
def scanFields : Nat → Str → List (Str × Str × Str)
  | 0, _ => []
  | fuel + 1, s =>
    match tryMatchField (s.length + 1) s with
    | some (m, rest) => m :: scanFields fuel rest
    | none =>
      match s with
      | [] => []
      | _ :: t => scanFields fuel t

/-- `_extract_fields` (source lines 168-186): scan the struct body text
and build `(name, type, doc)` triples, the type stripped and with
trailing commas removed. -/
def extract_fields (fields_text : Str) : Except String (List (Str × Str × Str)) :=
  mapME
    (fun m => do
      let d ← clean_doc_comment m.1
      return (m.2.1, rstripComma (pyStrip m.2.2), d))
    (scanFields (fields_text.length + 1) fields_text)

/-! ## Struct extraction (`_extract_structs`, source lines 69-106)

`struct_pattern` is compiled with `re.DOTALL`, so the `.*` inside the
doc-comment run and the attribute run may cross newlines: one `///.*\n`
iteration can end at any later newline of the file and one `#\[.*\]\s*`
iteration at any later closing bracket.  The candidate end positions of
those two starred groups are enumerated in Python's depth-first
preference order (an extra iteration before stopping, longer `.*`
first), and the deterministic remainder of the pattern is tried at each
candidate in turn. -/

/-- Positions `i` in descending order with `lo ≤ i` and `text[i] = c`. -/
def idxRev (text : Str) (c : Char) (lo : Nat) : List Nat :=
  (((List.range text.length).filter
    (fun i => lo ≤ i && text.getD i ' ' = c))).reverse

/-- Position reached from `i` after the greedy `\s*`. -/
def skipWs (text : Str) (i : Nat) : Nat :=
  i + ((text.drop i).takeWhile isPySpace).length

/-- The slice `text[i:j]`. -/
def slice (text : Str) (i j : Nat) : Str :=
  (text.drop i).take (j - i)

/-- Candidate end positions of one `///.*\n` iteration starting at `p`,
most greedy first: every newline position at or after the marker. -/
def docIterEnds (text : Str) (p : Nat) : List Nat :=
  if (lit "///").isPrefixOf (text.drop p) then
    (idxRev text '\n' (p + 3)).map (· + 1)
  else []

/-- Candidate end positions of the starred doc group `(?:///.*\n)*`
starting at `p`, in depth-first preference order; matching the empty
group (staying at `p`) comes last. -/
def docStarEnds (text : Str) : Nat → Nat → List Nat
  | 0, p => [p]
  | fuel + 1, p => ((docIterEnds text p).map (docStarEnds text fuel)).flatten ++ [p]

/-- Candidate end positions of one `#\[.*\]\s*` iteration starting at
`p`, most greedy first: every closing-bracket position at or after the
opening marker, followed by the greedy whitespace run. -/
def attrIterEnds (text : Str) (p : Nat) : List Nat :=
  if (lit "#[").isPrefixOf (text.drop p) then
    (idxRev text ']' (p + 2)).map (fun j => skipWs text (j + 1))
  else []

/-- Candidate end positions of the starred attribute group
`(?:#\[.*\]\s*)*` starting at `p`, in depth-first preference order. -/
def attrStarEnds (text : Str) : Nat → Nat → List Nat
  | 0, p => [p]
  | fuel + 1, p => ((attrIterEnds text p).map (attrStarEnds text fuel)).flatten ++ [p]

/-- Deterministic remainder of `struct_pattern` from position `a`:
`pub\s+struct\s+` name, optional generic suffix, then the brace-delimited
body.  The lazy `(?P<fields>.*?)\s*\}` stops at the first closing brace,
with the whitespace run before it going to the `\s*`.  Returns the name,
the fields text and the position after the closing brace. -/
def matchStructTail (text : Str) (a : Nat) : Option (Str × Str × Nat) :=
  let s := text.drop a
  if (lit "pub").isPrefixOf s then
    let r1 := s.drop 3
    let w1 := r1.takeWhile isPySpace
    if w1.isEmpty then none else
    let r2 := r1.drop w1.length
    if (lit "struct").isPrefixOf r2 then
      let r3 := r2.drop 6
      let w2 := r3.takeWhile isPySpace
      if w2.isEmpty then none else
      let r4 := r3.drop w2.length
      let name := r4.takeWhile isWordChar
      if name = [] then none else
      let r5 := (r4.drop name.length).dropWhile isPySpace
      let r7 := (matchOptGeneric r5).dropWhile isPySpace
      match r7 with
      | '{' :: r8 =>
        let q := r8.dropWhile isPySpace
        let upto := q.takeWhile (fun c => !(c = '}'))
        match q.drop upto.length with
        | '}' :: r9 =>
          some (name, dropRightWhile isPySpace upto, text.length - r9.length)
        | _ => none
      | _ => none
    else none
  else none

/-- Raw captures of one `struct_pattern` match. -/
structure StructRaw where
  doc : Str
  attrs : Str
  name : Str
  fields : Str
  start : Nat
  stop : Nat
deriving Repr, DecidableEq

/-- One attempt of `struct_pattern` at position `p`: each candidate split
into doc run, whitespace, attribute run is tried in preference order
until the deterministic tail matches. -/
def matchStructAt (text : Str) (p : Nat) : Option StructRaw :=
  (docStarEnds text (text.length + 1) p).findSome? fun d =>
    let p2 := skipWs text d
    (attrStarEnds text (text.length + 1) p2).findSome? fun a =>
      match matchStructTail text a with
      | some (name, flds, e) =>
        some { doc := slice text p d, attrs := slice text p2 a,
               name := name, fields := flds, start := p, stop := e }
      | none => none

/-- `re.finditer` over `struct_pattern`: leftmost matches, non-overlapping. -/
def scanStructs (text : Str) : Nat → Nat → List StructRaw
  | 0, _ => []
  | fuel + 1, p =>
    match matchStructAt text p with
    | some raw => raw :: scanStructs text fuel raw.stop
    | none => if p < text.length then scanStructs text fuel (p + 1) else []

/-- `re.findall(r'#\[([^\]]+)\]', attrs_text)` (source line 83): the
bracket contents, nonempty, scanned left to right. -/
def scanAttrList (fuel : Nat) (s : Str) : List Str :=
  match fuel, s with
  | 0, _ => []
  | _, [] => []
  | fuel + 1, c :: t =>
    if (lit "#[").isPrefixOf (c :: t) then
      let r := t.drop 1
      let inner := r.takeWhile (fun d => !(d = ']'))
      if inner.isEmpty then scanAttrList fuel t
      else
        match r.drop inner.length with
        | ']' :: rest => inner :: scanAttrList fuel rest
        | _ => scanAttrList fuel t
    else scanAttrList fuel t

/-! ## Size-calculation lookup (`_find_size_calculation`, source lines
215-227): `re.search` over the whole file text for an `impl` block of the
struct (either directly or as `ZeroCopyAccount for` it) containing a
`fn space() -> usize` body, whose text is the capture. -/

/-- Match of `fn\s+space\(\)\s*->\s*usize\s*\{\s*([^}]+)\s*\}` at the
head of `s`, returning the raw capture.  The class `[^}]` contains every
whitespace character, so when the greedy `\s*` after the inner brace
leaves it nothing to match Python backs off one whitespace character. -/
def matchSpaceFn (s : Str) : Option Str :=
  if (lit "fn").isPrefixOf s then
    let r1 := s.drop 2
    let w := r1.takeWhile isPySpace
    if w.isEmpty then none else
    let r2 := r1.drop w.length
    if (lit "space()").isPrefixOf r2 then
      let r3 := (r2.drop 7).dropWhile isPySpace
      if (lit "->").isPrefixOf r3 then
        let r4 := (r3.drop 2).dropWhile isPySpace
        if (lit "usize").isPrefixOf r4 then
          let r5 := (r4.drop 5).dropWhile isPySpace
          match r5 with
          | '{' :: r6 =>
            let ws1 := r6.takeWhile isPySpace
            let r7 := r6.drop ws1.length
            let g1 := r7.takeWhile (fun c => !(c = '}'))
            match r7.drop g1.length with
            | '}' :: _ =>
              if g1.isEmpty then
                match ws1.reverse with
                | c :: _ => some [c]
                | [] => none
              else some g1
            | _ => none
          | _ => none
        else none
      else none
    else none
  else none

/-- The lazy `[^}]*?` before the `fn space` part: try the shortest
expansion first, never crossing a closing brace. -/
def scanForSpaceFn : Nat → Str → Option Str
  | 0, _ => none
  | fuel + 1, s =>
    match matchSpaceFn s with
    | some g => some g
    | none =>
      match s with
      | [] => none
      | c :: t => if c = '}' then none else scanForSpaceFn fuel t

/-- The opening of `impl_pattern` at the head of `s`: `impl\s+` then the
alternation (struct name first, trait form second, each with the whole
remainder of the pattern), then `\s*{` and the lazy body scan. -/
def matchImplAt (name : Str) (s : Str) : Option Str :=
  if (lit "impl").isPrefixOf s then
    let r1 := s.drop 4
    let w := r1.takeWhile isPySpace
    if w.isEmpty then none else
    let r2 := r1.drop w.length
    let tail : Str → Option Str := fun r =>
      match r.dropWhile isPySpace with
      | '{' :: r8 => scanForSpaceFn (r8.length + 1) r8
      | _ => none
    let branch1 : Option Str :=
      if name.isPrefixOf r2 then tail (r2.drop name.length) else none
    match branch1 with
    | some g => some g
    | none =>
      if (lit "ZeroCopyAccount").isPrefixOf r2 then
        let r3 := r2.drop 15
        let w2 := r3.takeWhile isPySpace
        if w2.isEmpty then none else
        let r4 := r3.drop w2.length
        if (lit "for").isPrefixOf r4 then
          let r5 := r4.drop 3
          let w3 := r5.takeWhile isPySpace
          if w3.isEmpty then none else
          let r6 := r5.drop w3.length
          if name.isPrefixOf r6 then tail (r6.drop name.length) else none
        else none
      else none
  else none

/-- `re.search` of `impl_pattern`: first matching start position, left to
right. -/
def searchImpl (name : Str) : Nat → Str → Option Str
  | 0, _ => none
  | fuel + 1, s =>
    match matchImplAt name s with
    | some g => some g
    | none =>
      match s with
      | [] => none
      | _ :: t => searchImpl name fuel t

/-- `_find_size_calculation` (source lines 215-227). -/
def find_size_calculation (content : Str) (struct_name : Str) : Option Str :=
  (searchImpl struct_name (content.length + 1) content).map pyStrip

/-- `StructInfo` (source lines 19-28); a field is `(name, type, doc)`. -/
structure StructInfo where
  name : String
  doc_comment : String
  fields : List (String × String × String)
  attributes : List String
  file_path : String
  line_number : Nat
  size_calculation : Option String
deriving Repr, DecidableEq

/-- Build one `StructInfo` from the raw captures (the loop body of
`_extract_structs`, source lines 81-106). -/
def mkStructInfo (file_path : String) (content : Str) (m : StructRaw) :
    Except String StructInfo := do
  let doc ← clean_doc_comment m.doc
  let flds ← extract_fields m.fields
  return {
    name := ⟨m.name⟩
    doc_comment := ⟨doc⟩
    fields := flds.map (fun f => (⟨f.1⟩, ⟨f.2.1⟩, ⟨f.2.2⟩))
    attributes := (scanAttrList (m.attrs.length + 1) m.attrs).map
      (fun a => ⟨pyStrip a⟩)
    file_path := file_path
    line_number := (content.take m.start).count '\n' + 1
    size_calculation := (find_size_calculation content m.name).map
      (fun g => String.mk g) }

/-- `_extract_structs` (source lines 69-106), with the extractor's
relative file path supplied by the traversal as in spec section 4.1. -/
def extract_structs (content : Str) (file_path : String) :
    Except String (List StructInfo) :=
  mapME (mkStructInfo file_path content)
    (scanStructs content (content.length + 1) 0)

/-! ## Generation engine (`DocumentationGenerator`, source lines 230-414)

Each generator builds the list of content pieces that the Python code
accumulates before `_write_file` joins and persists them; the timestamp
of the index is an input, produced by the external clock collaborator. -/

/-- Python `needle in hay` on strings. -/
def containsSub (needle : Str) : Str → Bool
  | [] => needle.isPrefixOf []
  | c :: t => needle.isPrefixOf (c :: t) || containsSub needle t

/-- Python `needle in hay` lifted to `String`. -/
def strContains (hay needle : String) : Bool :=
  containsSub needle.toList hay.toList

/-- The zero-copy filter of `generate_zero_copy_reference` (source line
249): the marker is searched in the space-joined attribute list. -/
def isZeroCopy (s : StructInfo) : Bool :=
  strContains (String.intercalate " " s.attributes) "account(zero_copy)"

/-- `_generate_struct_section`, field list entry (source lines 374-378). -/
def fieldLines (f : String × String × String) : List String :=
  ["- `" ++ f.1 ++ ": " ++ f.2.1 ++ "`"]
  ++ (if f.2.2 = "" then [] else [" - " ++ f.2.2])
  ++ ["\n"]

/-- `_generate_struct_section` (source lines 351-381). -/
def structSection (s : StructInfo) : List String :=
  ["### " ++ s.name ++ "\n",
   "**Location**: `" ++ s.file_path ++ ":" ++ toString s.line_number ++ "`\n"]
  ++ (if s.attributes.isEmpty then [] else
       ["**Attributes**: `" ++ String.intercalate ", " s.attributes ++ "`\n"])
  ++ (if s.doc_comment = "" then [] else [s.doc_comment, "\n"])
  ++ (match s.size_calculation with
      | some sc => ["**Size Calculation**:\n", "```rust\n", sc, "\n```\n"]
      | none => [])
  ++ (if s.fields.isEmpty then [] else
       "**Fields**:\n" :: (s.fields.map fieldLines).flatten)
  ++ ["\n"]

/-- `_generate_function_section`, parameter entry (source line 397). -/
def parameterLine (p : String × String) : String :=
  "- `" ++ p.1 ++ ": " ++ p.2 ++ "`\n"

/-- `_generate_function_section` (source lines 383-400). -/
def functionSection (f : FunctionInfo) : List String :=
  ["### " ++ f.name ++ "\n",
   "**Location**: `" ++ f.file_path ++ ":" ++ toString f.line_number ++ "`\n",
   "**Signature**: `" ++ f.signature ++ "`\n"]
  ++ (if f.doc_comment = "" then [] else [f.doc_comment, "\n"])
  ++ (if f.parameters.isEmpty then [] else
       "**Parameters**:\n" :: f.parameters.map parameterLine)
  ++ ["**Returns**: `" ++ f.return_type ++ "`\n\n"]

/-- `generate_zero_copy_reference` (source lines 245-266): `none` stands
for the early return that produces no artifact at all. -/
def generate_zero_copy_reference (structs : List StructInfo) :
    Option (List String) :=
  let zero_copy_structs := structs.filter isZeroCopy
  if zero_copy_structs.isEmpty then none
  else some (
    ["# Zero-Copy Structures Reference\n",
     "This document provides detailed reference information for all zero-copy structures ",
     "in the Solana Borrow-Lending Protocol.\n",
     "## Overview\n",
     "Total zero-copy structures: **" ++ toString zero_copy_structs.length ++ "**\n"]
    ++ (zero_copy_structs.map structSection).flatten)

/-- First classification test of `generate_api_structures` (source line
284): the account marker is searched in the space-joined attributes. -/
def isAccountStruct (s : StructInfo) : Bool :=
  strContains (String.intercalate " " s.attributes) "account"

/-- Python `str.lower()` (per-character basic-latin lowering; the struct
names are ASCII identifiers). -/
def pyLower (s : String) : String := ⟨s.data.map Char.toLower⟩

/-- Second classification test (source line 286). -/
def isConfigStruct (s : StructInfo) : Bool :=
  strContains (pyLower s.name) "config"

/-- Third classification test (source line 288). -/
def isDataStruct (s : StructInfo) : Bool :=
  ["data", "info", "cap", "snapshot"].any (fun k => strContains (pyLower s.name) k)

/-- The classification loop of `generate_api_structures` (source lines
283-291): first match wins, each struct appended to one of the four
buckets, which sit in the insertion order of the dict literal of source
lines 276-281: Account, Data, Configuration, Other. -/
def classifyStructs (structs : List StructInfo) :
    List StructInfo × List StructInfo × List StructInfo × List StructInfo :=
  structs.foldl
    (fun b s =>
      if isAccountStruct s then (b.1 ++ [s], b.2.1, b.2.2.1, b.2.2.2)
      else if isConfigStruct s then (b.1, b.2.1, b.2.2.1 ++ [s], b.2.2.2)
      else if isDataStruct s then (b.1, b.2.1 ++ [s], b.2.2.1, b.2.2.2)
      else (b.1, b.2.1, b.2.2.1, b.2.2.2 ++ [s]))
    ([], [], [], [])

/-- A category heading with its sections, skipped when empty (source
lines 293-297). -/
def categoryBlock (title : String) (structs : List StructInfo) : List String :=
  if structs.isEmpty then []
  else ("## " ++ title ++ "\n") :: (structs.map structSection).flatten

/-- `generate_api_structures` (source lines 268-299): the categories are
rendered in the dict literal's insertion order. -/
def generate_api_structures (structs : List StructInfo) : List String :=
  let b := classifyStructs structs
  ["# API Structures Reference\n",
   "Comprehensive reference for all data structures used in the protocol.\n"]
  ++ categoryBlock "Account Structures" b.1
  ++ categoryBlock "Data Structures" b.2.1
  ++ categoryBlock "Configuration Structures" b.2.2.1
  ++ categoryBlock "Other Structures" b.2.2.2

/-- The `by_file` dict of `generate_function_reference` (source lines
312-317): keys in first-appearance order, values appended in input
order. -/
def addToGroup (acc : List (String × List FunctionInfo)) (k : String)
    (f : FunctionInfo) : List (String × List FunctionInfo) :=
  match acc with
  | [] => [(k, [f])]
  | (k', g) :: rest =>
    if k' = k then (k', g ++ [f]) :: rest else (k', g) :: addToGroup rest k f

def groupByFile (fs : List FunctionInfo) : List (String × List FunctionInfo) :=
  fs.foldl (fun acc f => addToGroup acc f.file_path f) []

/-- Comparison used by `sorted(by_file.items())` (source line 319):
Python compares the tuples lexicographically, but the keys of a dict are
pairwise distinct so only the path component is ever consulted. -/
def byPath (a b : String × List FunctionInfo) : Prop := a.1 ≤ b.1

instance : DecidableRel byPath := fun a b =>
  inferInstanceAs (Decidable (a.1 ≤ b.1))

instance : IsTotal (String × List FunctionInfo) byPath :=
  ⟨fun a b => le_total a.1 b.1⟩

instance : IsTrans (String × List FunctionInfo) byPath :=
  ⟨fun _ _ _ h1 h2 => le_trans h1 h2⟩

/-- The groups of `generate_function_reference` in render order. -/
def sortedGroups (fs : List FunctionInfo) : List (String × List FunctionInfo) :=
  List.insertionSort byPath (groupByFile fs)

/-- `generate_function_reference` (source lines 301-325). -/
def generate_function_reference (functions : List FunctionInfo) : List String :=
  let public_functions := functions.filter (fun f => f.is_public)
  ["# Function Reference\n",
   "Reference documentation for all public functions in the protocol.\n",
   "Total public functions: **" ++ toString public_functions.length ++ "**\n"]
  ++ ((sortedGroups public_functions).map
      (fun g => ("## " ++ g.1 ++ "\n") :: (g.2.map functionSection).flatten)).flatten

/-- The function records that receive a rendered section in
`generate_function_reference`, in render order: the grouped public
records flattened in group order. -/
def renderedFuncs (functions : List FunctionInfo) : List FunctionInfo :=
  ((sortedGroups (functions.filter (fun f => f.is_public))).map Prod.snd).flatten

/-- `generate_index` (source lines 327-349); the timestamp is produced by
the external clock collaborator. -/
def generate_index (structs : List StructInfo) (functions : List FunctionInfo)
    (timestamp : String) : List String :=
  ["# Auto-Generated Documentation Index\n",
   "This index is automatically generated from the Rust source code.\n",
   "Last updated: " ++ timestamp ++ "\n",
   "## Statistics\n",
   "- **Structures documented**: " ++ toString structs.length ++ "\n",
   "- **Functions documented**: " ++ toString functions.length ++ "\n",
   "- **Zero-copy structures**: " ++ toString (structs.filter isZeroCopy).length ++ "\n",
   "## Generated Files\n",
   "- [Zero-Copy Structures Reference](zero-copy-reference.md)\n",
   "- [API Structures Reference](api-structures.md)\n",
   "- [Function Reference](function-reference.md)\n",
   "## Manual Documentation\n",
   "- [Zero-Copy Architecture Guide](zero-copy-architecture.md)\n",
   "- [Performance Optimization Guide](performance-optimization.md)\n",
   "- [API Reference](api-reference.md)\n",
   "- [User Tutorials](user-tutorials.md)\n",
   "- [Developer Guide](developer-guide.md)\n"]

/-! ## Example records used by witnesses and counterexamples (claim C1) -/

/-- A private function record, as `_extract_functions` would produce it
for `fn f() {}`. -/
def privateFn : FunctionInfo :=
  ⟨"f", "", "fn f() -> ()", "a.rs", 1, false, [], "()"⟩

/-- A zero-copy struct record for the C7 witness. -/
def obligationExample : StructInfo :=
  ⟨"Obligation", "", [], ["account(zero_copy)"], "o.rs", 1, none⟩

/-! ## Category filters in classification order (claim C2) -/

/-- Structs landing in the Account category (first test wins). -/
def accountCat (structs : List StructInfo) : List StructInfo :=
  structs.filter (fun s => isAccountStruct s)

/-- Structs landing in the Configuration category. -/
def configCat (structs : List StructInfo) : List StructInfo :=
  structs.filter (fun s => !isAccountStruct s && isConfigStruct s)

/-- Structs landing in the Data category. -/
def dataCat (structs : List StructInfo) : List StructInfo :=
  structs.filter
    (fun s => !isAccountStruct s && !isConfigStruct s && isDataStruct s)

/-- Structs landing in the Other category. -/
def otherCat (structs : List StructInfo) : List StructInfo :=
  structs.filter
    (fun s => !isAccountStruct s && !isConfigStruct s && !isDataStruct s)

/-- A configuration struct and a data struct for the C2 counterexample. -/
def myConfigExample : StructInfo := ⟨"MyConfig", "", [], [], "a.rs", 1, none⟩

def myInfoExample : StructInfo := ⟨"MyInfo", "", [], [], "a.rs", 2, none⟩

/-- The struct record extracted from the witness text below. -/
def structAExample : StructInfo := ⟨"A", "", [("x", "u8", "")], [], "w.rs", 1, none⟩

/-- The function record extracted from the witness text below. -/
def funcGExample : FunctionInfo :=
  ⟨"g", "", "fn g(y: u8) -> ()", "w.rs", 1, true, [("y", "u8")], "()"⟩

/-- A private and a public record for the C5 witness. -/
def privateFnTwo : FunctionInfo :=
  ⟨"ph", "", "fn ph() -> ()", "a.rs", 3, false, [], "()"⟩

def publicFnExample : FunctionInfo :=
  ⟨"pf", "", "fn pf() -> ()", "a.rs", 1, true, [], "()"⟩

/-- Records in two files for the C6 witness, extraction order `b.src`
before `a.src`. -/
def fnInB : FunctionInfo := ⟨"f1", "", "fn f1() -> ()", "b.src", 1, true, [], "()"⟩

def fnInA : FunctionInfo := ⟨"f2", "", "fn f2() -> ()", "a.src", 2, true, [], "()"⟩

/-! Basic lemmas about the string primitives. -/

theorem dropRightWhile_length_le (p : Char → Bool) (s : Str) :
    (dropRightWhile p s).length ≤ s.length := by
  unfold dropRightWhile
  rw [List.length_reverse]
  calc (s.reverse.dropWhile p).length ≤ s.reverse.length := (List.dropWhile_sublist _).length_le
    _ = s.length := List.length_reverse s

theorem pyStrip_length_le (s : Str) : (pyStrip s).length ≤ s.length :=
  le_trans (dropRightWhile_length_le _ _) ((List.dropWhile_sublist _).length_le)

theorem dropRightWhile_sublist (p : Char → Bool) (s : Str) :
    (dropRightWhile p s).Sublist s := by
  unfold dropRightWhile
  have h := (List.dropWhile_sublist (l := s.reverse) p).reverse
  simpa using h

theorem pyStrip_sublist (s : Str) : (pyStrip s).Sublist s :=
  (dropRightWhile_sublist _ _).trans (List.dropWhile_sublist _)

theorem rstripComma_sublist (s : Str) : (rstripComma s).Sublist s :=
  dropRightWhile_sublist _ s

theorem splitNl_ne_nil (s : Str) : splitNl s ≠ [] := by
  induction s with
  | nil => simp [splitNl]
  | cons c t ih =>
    rw [splitNl]
    by_cases h : c = '\n'
    · simp [h]
    · simp only [if_neg h]
      rcases hr : splitNl t with _ | ⟨l, ls⟩
      · exact absurd hr ih
      · simp

/-- Sum of the line lengths plus the newline count reconstitutes the
length of the split string. -/
theorem splitNl_length (s : Str) :
    ((splitNl s).map List.length).sum + (splitNl s).length = s.length + 1 := by
  induction s with
  | nil => simp [splitNl]
  | cons c t ih =>
    rw [splitNl]
    by_cases h : c = '\n'
    · simp only [if_pos h, List.map_cons, List.sum_cons, List.length_cons,
        List.length_nil]
      omega
    · simp only [if_neg h]
      rcases hr : splitNl t with _ | ⟨l, ls⟩
      · exact absurd hr (splitNl_ne_nil t)
      · rw [hr] at ih
        simp only [List.map_cons, List.sum_cons, List.length_cons] at ih ⊢
        omega

theorem joinNl_length (ls : List Str) (h : ls ≠ []) :
    (joinNl ls).length + 1 = (ls.map List.length).sum + ls.length := by
  induction ls with
  | nil => exact absurd rfl h
  | cons l rest ih =>
    cases rest with
    | nil => simp [joinNl]
    | cons m tail =>
      have := ih (by simp)
      simp only [joinNl, List.map_cons, List.sum_cons, List.length_cons,
        List.length_append, List.length_cons] at this ⊢
      omega

theorem hasLeader_length {l : Str} (h : hasLeader l = true) : 3 ≤ l.length := by
  rcases Bool.or_eq_true_iff.1 h with h3 | h3 <;>
  · have := List.IsPrefix.length_le ((List.isPrefixOf_iff_prefix).1 h3)
    simpa [lit] using this

/-- Closed form of `cleanLine`: both recognized leaders are three
characters long, so a kept line is always the stripped remainder after
dropping three characters. -/
theorem cleanLine_eq (line : Str) :
    cleanLine line =
      if hasLeader (pyStrip line)
      then .ok (some (pyStrip ((pyStrip line).drop 3)))
      else .ok none := by
  unfold cleanLine hasLeader
  cases h3 : (lit "///").isPrefixOf (pyStrip line) with
  | true =>
    have h3' : lit "///" <+: pyStrip line := (List.isPrefixOf_iff_prefix).1 h3
    have hlen : 3 ≤ (pyStrip line).length := by
      have := List.IsPrefix.length_le h3'
      simpa [lit] using this
    simp [h3', sliceFrom, hlen, bind, Except.bind, pure, Except.pure]
  | false =>
    have h3' : ¬ lit "///" <+: pyStrip line := by
      rw [← List.isPrefixOf_iff_prefix (α := Char), h3]; simp
    cases h4 : (lit "//!").isPrefixOf (pyStrip line) with
    | true =>
      have h4' : lit "//!" <+: pyStrip line := (List.isPrefixOf_iff_prefix).1 h4
      have hlen : 3 ≤ (pyStrip line).length := by
        have := List.IsPrefix.length_le h4'
        simpa [lit] using this
      simp [h3', h4', sliceFrom, hlen, bind, Except.bind, pure, Except.pure]
    | false =>
      have h4' : ¬ lit "//!" <+: pyStrip line := by
        rw [← List.isPrefixOf_iff_prefix (α := Char), h4]; simp
      simp [h3', h4', pure, Except.pure]

/-- A kept line loses at least its three leader characters. -/
theorem cleanLine_length (line : Str) (r : Str)
    (h : cleanLine line = .ok (some r)) : r.length + 3 ≤ line.length := by
  rw [cleanLine_eq] at h
  cases hl : hasLeader (pyStrip line) with
  | false => simp [hl] at h
  | true =>
    simp only [hl, if_pos, Except.ok.injEq, Option.some.injEq] at h
    subst h
    have hlen := hasLeader_length hl
    have h1 : (pyStrip ((pyStrip line).drop 3)).length ≤ (pyStrip line).length - 3 := by
      simpa using pyStrip_length_le ((pyStrip line).drop 3)
    have h2 := pyStrip_length_le line
    omega

theorem cleanLine_never_fails (line : Str) : ∃ r, cleanLine line = .ok r := by
  rw [cleanLine_eq]
  cases hl : hasLeader (pyStrip line) <;> simp

theorem cleanLines_never_fails (ls : List Str) : ∃ rs, cleanLines ls = .ok rs := by
  induction ls with
  | nil => exact ⟨[], rfl⟩
  | cons l rest ih =>
    obtain ⟨r, hr⟩ := cleanLine_never_fails l
    obtain ⟨rs, hrs⟩ := ih
    cases r with
    | none => exact ⟨rs, by simp [cleanLines, hr, hrs, bind, Except.bind]⟩
    | some cl => exact ⟨cl :: rs, by simp [cleanLines, hr, hrs, bind, Except.bind]⟩

/-- The kept lines shrink: their total length plus three characters per
kept line is bounded by the total input line length, and no lines are
invented. -/
theorem cleanLines_length (ls : List Str) (rs : List Str)
    (h : cleanLines ls = .ok rs) :
    (rs.map List.length).sum + 3 * rs.length ≤ (ls.map List.length).sum ∧
      rs.length ≤ ls.length := by
  induction ls generalizing rs with
  | nil =>
    simp only [cleanLines, Except.ok.injEq] at h
    subst h; simp
  | cons l rest ih =>
    obtain ⟨r, hr⟩ := cleanLine_never_fails l
    obtain ⟨rs', hrs'⟩ := cleanLines_never_fails rest
    have hih := ih rs' hrs'
    simp only [cleanLines, hr, hrs', bind, Except.bind] at h
    cases r with
    | none =>
      simp only [Except.ok.injEq] at h
      subst h
      simp only [List.map_cons, List.sum_cons, List.length_cons]
      omega
    | some cl =>
      simp only [Except.ok.injEq] at h
      subst h
      have hcl := cleanLine_length l cl hr
      simp only [List.map_cons, List.sum_cons, List.length_cons]
      omega

theorem clean_doc_comment_never_fails (s : Str) :
    ∃ r, clean_doc_comment s = .ok r := by
  unfold clean_doc_comment
  by_cases h : s = []
  · exact ⟨[], by simp [h, pure, Except.pure]⟩
  · obtain ⟨rs, hrs⟩ := cleanLines_never_fails (splitNl (pyStrip s))
    exact ⟨joinNl rs, by simp [h, hrs, bind, Except.bind, pure, Except.pure]⟩

/-- A nonempty cleaning result is strictly shorter than the input. -/
theorem clean_doc_comment_shrinks (s t : Str)
    (h : clean_doc_comment s = .ok t) (ht : t ≠ []) : t.length < s.length := by
  unfold clean_doc_comment at h
  by_cases hs : s = []
  · simp only [hs, pure, Except.pure] at h
    simp at h
    exact absurd h ht
  · obtain ⟨rs, hrs⟩ := cleanLines_never_fails (splitNl (pyStrip s))
    simp only [hs, hrs, bind, Except.bind, pure, Except.pure] at h
    simp at h
    subst h
    have hlen := cleanLines_length _ _ hrs
    have hsplit := splitNl_length (pyStrip s)
    have hstrip := pyStrip_length_le s
    have hne : rs ≠ [] := by
      intro h0
      rw [h0] at ht
      exact ht rfl
    have hj := joinNl_length rs hne
    have hk : 1 ≤ rs.length := by
      cases rs with
      | nil => exact absurd rfl hne
      | cons a b => simp
    omega

/-! ## Claim C3: doc-comment cleaning and idempotence -/

/-- C3 counterexample: cleaning is not idempotent.  Cleaning `/// x`
yields `x`, but cleaning `x` yields the empty string (a line without a
marker is dropped), so applying the cleaner to its own output changes
it. -/
theorem clean_doc_comment_not_idempotent :
    clean_doc_comment (lit "/// x") = .ok (lit "x") ∧
      clean_doc_comment (lit "x") ≠ .ok (lit "x") := by
  refine ⟨rfl, ?_⟩
  intro h
  rw [show clean_doc_comment (lit "x") = .ok [] from rfl] at h
  simp [lit] at h

/-- C3, amended: a second application of doc-comment cleaning returns its
input unchanged exactly when the first application produced the empty
string; on any nonempty cleaning result a second application changes it
(every kept line shrinks by its marker, and unmarked lines are dropped
entirely). -/
theorem clean_doc_comment_idempotent_iff (s t : Str)
    (h : clean_doc_comment s = .ok t) :
    (clean_doc_comment t = .ok t ↔ t = []) := by
  constructor
  · intro h2
    by_contra ht
    exact absurd (clean_doc_comment_shrinks t t h2 ht) (lt_irrefl _)
  · intro h2
    subst h2
    rfl

/-- Witness for the amended C3 at the concrete input `/// x`. -/
theorem clean_doc_comment_idempotent_iff_witness :
    (clean_doc_comment (lit "x") = .ok (lit "x") ↔ lit "x" = []) :=
  clean_doc_comment_idempotent_iff (lit "/// x") (lit "x") rfl

/-! ## Claim C8: the `refresh` scenario -/

/-- C8: the text `pub fn refresh(ctx: Context) -> ProgramResult {}`
yields exactly one record, public, with parameters `[("ctx","Context")]`
and return type `ProgramResult`; with the `pub` marker absent the record
is extracted as private and the function reference renders no section
for it (only the fixed header and a zero count). -/
theorem refresh_scenario :
    extract_functions (lit "pub fn refresh(ctx: Context) -> ProgramResult \x7b\x7d")
        "lib.rs"
      = .ok [⟨"refresh", "", "fn refresh(ctx: Context) -> ProgramResult",
             "lib.rs", 1, true, [("ctx", "Context")], "ProgramResult"⟩] ∧
    extract_functions (lit "fn refresh(ctx: Context) -> ProgramResult \x7b\x7d")
        "lib.rs"
      = .ok [⟨"refresh", "", "fn refresh(ctx: Context) -> ProgramResult",
             "lib.rs", 1, false, [("ctx", "Context")], "ProgramResult"⟩] ∧
    generate_function_reference
        [⟨"refresh", "", "fn refresh(ctx: Context) -> ProgramResult",
          "lib.rs", 1, false, [("ctx", "Context")], "ProgramResult"⟩]
      = ["# Function Reference\n",
         "Reference documentation for all public functions in the protocol.\n",
         "Total public functions: **0**\n"] :=
  ⟨rfl, rfl, rfl⟩

/-! ## Claim C1: the statistics of the index -/

/-- C1 counterexample: for one extracted private function the index
renders the functions statistic `1` although the number of public
records is `0` — the statistic counts all extracted functions, not the
public ones. -/
theorem generate_index_counts_all_functions :
    (generate_index [] [privateFn] "2024-01-01 00:00:00 UTC")[5]?
        = some "- **Functions documented**: 1\n" ∧
      ([privateFn].filter (fun f => f.is_public)).length = 0 :=
  ⟨rfl, rfl⟩

/-- C1, amended: the three rendered statistics are the total struct
count, the total extracted function count (public and private alike),
and the zero-copy struct count. -/
theorem generate_index_stats (structs : List StructInfo)
    (functions : List FunctionInfo) (ts : String) :
    (generate_index structs functions ts)[4]?
        = some ("- **Structures documented**: " ++ toString structs.length ++ "\n") ∧
    (generate_index structs functions ts)[5]?
        = some ("- **Functions documented**: " ++ toString functions.length ++ "\n") ∧
    (generate_index structs functions ts)[6]?
        = some ("- **Zero-copy structures**: "
            ++ toString (structs.filter isZeroCopy).length ++ "\n") :=
  ⟨rfl, rfl, rfl⟩

/-! ## Claim C7: the zero-copy reference is skipped or rendered -/

/-- C7: when no struct's attributes contain the zero-copy marker the
generator produces no artifact at all; when at least one qualifies it
produces one artifact made of the fixed heading lines, the count of
qualifying structs, and one section per qualifying struct in order. -/
theorem generate_zero_copy_reference_skip_or_render (structs : List StructInfo) :
    ((∀ s ∈ structs, isZeroCopy s = false) →
        generate_zero_copy_reference structs = none) ∧
    ((∃ s ∈ structs, isZeroCopy s = true) →
        generate_zero_copy_reference structs = some (
          ["# Zero-Copy Structures Reference\n",
           "This document provides detailed reference information for all zero-copy structures ",
           "in the Solana Borrow-Lending Protocol.\n",
           "## Overview\n",
           "Total zero-copy structures: **"
             ++ toString (structs.filter isZeroCopy).length ++ "**\n"]
          ++ ((structs.filter isZeroCopy).map structSection).flatten)) := by
  constructor
  · intro h
    have he : structs.filter isZeroCopy = [] := by
      rw [List.filter_eq_nil_iff]
      intro s hs
      simp [h s hs]
    unfold generate_zero_copy_reference
    simp [he]
  · rintro ⟨s, hs, hzc⟩
    have hne : (structs.filter isZeroCopy).isEmpty = false := by
      have : s ∈ structs.filter isZeroCopy := List.mem_filter.2 ⟨hs, hzc⟩
      cases hf : structs.filter isZeroCopy with
      | nil => rw [hf] at this; exact absurd this (List.not_mem_nil s)
      | cons a l => simp
    unfold generate_zero_copy_reference
    simp only [hne, Bool.false_eq_true, if_neg]
    rfl

/-- Witness for C7: one qualifying struct produces the artifact, and the
empty collection produces none. -/
theorem generate_zero_copy_reference_witness :
    generate_zero_copy_reference [] = none ∧
    generate_zero_copy_reference [obligationExample] = some
      ["# Zero-Copy Structures Reference\n",
       "This document provides detailed reference information for all zero-copy structures ",
       "in the Solana Borrow-Lending Protocol.\n",
       "## Overview\n",
       "Total zero-copy structures: **1**\n",
       "### Obligation\n",
       "**Location**: `o.rs:1`\n",
       "**Attributes**: `account(zero_copy)`\n",
       "\n"] := by
  constructor
  · exact (generate_zero_copy_reference_skip_or_render []).1 (by intro s hs; cases hs)
  · have h := (generate_zero_copy_reference_skip_or_render [obligationExample]).2
      ⟨obligationExample, by simp, by decide⟩
    rw [h]
    rfl

/-! ## Claim C2: category order of the structures reference -/

/-- The classification fold fills its four buckets with exactly the four
first-match-wins filters, in original extraction order. -/
theorem classifyStructs_eq_filters (structs : List StructInfo)
    (a d c o : List StructInfo) :
    structs.foldl
      (fun b s =>
        if isAccountStruct s then (b.1 ++ [s], b.2.1, b.2.2.1, b.2.2.2)
        else if isConfigStruct s then (b.1, b.2.1, b.2.2.1 ++ [s], b.2.2.2)
        else if isDataStruct s then (b.1, b.2.1 ++ [s], b.2.2.1, b.2.2.2)
        else (b.1, b.2.1, b.2.2.1, b.2.2.2 ++ [s]))
      (a, d, c, o)
    = (a ++ accountCat structs, d ++ dataCat structs,
       c ++ configCat structs, o ++ otherCat structs) := by
  induction structs generalizing a d c o with
  | nil => simp [accountCat, dataCat, configCat, otherCat]
  | cons s t ih =>
    simp only [List.foldl_cons]
    cases h1 : isAccountStruct s with
    | true =>
      simp only [h1, if_pos]
      rw [ih]
      simp [accountCat, dataCat, configCat, otherCat, h1, List.filter_cons]
    | false =>
      cases h2 : isConfigStruct s with
      | true =>
        simp only [h1, h2, Bool.false_eq_true, if_neg, if_pos,
          not_false_eq_true]
        rw [ih]
        simp [accountCat, dataCat, configCat, otherCat, h1, h2,
          List.filter_cons]
      | false =>
        cases h3 : isDataStruct s with
        | true =>
          simp only [h1, h2, h3, Bool.false_eq_true, if_neg, if_pos,
            not_false_eq_true]
          rw [ih]
          simp [accountCat, dataCat, configCat, otherCat, h1, h2, h3,
            List.filter_cons]
        | false =>
          simp only [h1, h2, h3, Bool.false_eq_true, if_neg,
            not_false_eq_true]
          rw [ih]
          simp [accountCat, dataCat, configCat, otherCat, h1, h2, h3,
            List.filter_cons]

/-- C2, amended: the structures reference classifies first-match-wins in
the order Account, Configuration, Data, Other, but renders the non-empty
category headings in the insertion order of the category dict — Account,
then Data, then Configuration, then Other — each heading followed by its
structs' sections in original extraction order. -/
theorem generate_api_structures_render_order (structs : List StructInfo) :
    generate_api_structures structs =
      ["# API Structures Reference\n",
       "Comprehensive reference for all data structures used in the protocol.\n"]
      ++ categoryBlock "Account Structures" (accountCat structs)
      ++ categoryBlock "Data Structures" (dataCat structs)
      ++ categoryBlock "Configuration Structures" (configCat structs)
      ++ categoryBlock "Other Structures" (otherCat structs) := by
  unfold generate_api_structures classifyStructs
  rw [classifyStructs_eq_filters structs [] [] [] []]
  simp

/-- C2 counterexample: with one Configuration struct and one Data struct
the Data heading is rendered before the Configuration heading, against
the claimed order (1) Account, (2) Configuration, (3) Data, (4) Other. -/
theorem api_structures_order_counterexample :
    (generate_api_structures [myConfigExample, myInfoExample]).indexOf
        "## Data Structures\n"
      < (generate_api_structures [myConfigExample, myInfoExample]).indexOf
        "## Configuration Structures\n" ∧
    (generate_api_structures [myConfigExample, myInfoExample]).contains
        "## Configuration Structures\n" = true := by
  have h2 : (generate_api_structures [myConfigExample, myInfoExample]).indexOf
      "## Data Structures\n" = 2 := by decide
  have h6 : (generate_api_structures [myConfigExample, myInfoExample]).indexOf
      "## Configuration Structures\n" = 6 := by decide
  have hc : (generate_api_structures [myConfigExample, myInfoExample]).contains
      "## Configuration Structures\n" = true := by decide
  exact ⟨by rw [h2, h6]; decide, hc⟩

/-! ## Claim C10: field types contain no comma and no newline -/

theorem mapME_ok_mem {α β : Type} (g : α → Except String β) (l : List α)
    (r : List β) (h : mapME g l = .ok r) : ∀ y ∈ r, ∃ x ∈ l, g x = .ok y := by
  induction l generalizing r with
  | nil =>
    simp only [mapME, Except.ok.injEq] at h
    subst h
    simp
  | cons x xs ih =>
    simp only [mapME, bind, Except.bind] at h
    cases hg : g x with
    | error e => rw [hg] at h; exact absurd h (by simp)
    | ok y =>
      rw [hg] at h
      cases hm : mapME g xs with
      | error e => rw [hm] at h; exact absurd h (by simp)
      | ok ys =>
        rw [hm] at h
        simp only [pure, Except.pure, Except.ok.injEq] at h
        subst h
        intro z hz
        rcases List.mem_cons.1 hz with rfl | hz
        · exact ⟨x, List.mem_cons_self x xs, hg⟩
        · obtain ⟨x', hx', hgx'⟩ := ih ys hm z hz
          exact ⟨x', List.mem_cons_of_mem x hx', hgx'⟩

/-- The head of a `dropWhile` residue fails the dropped predicate. -/
theorem dropWhile_head_false {q : Char → Bool} {l tail : Str} {c : Char}
    (h : l.dropWhile q = c :: tail) : q c = false := by
  have hh := List.head?_dropWhile_not q l
  rw [h] at hh
  simpa using hh

/-- Every raw type capture of one field match consists of `[^,\n]`
characters only: the greedy branch is a `takeWhile` over that class and
the backoff branch takes a single whitespace character that passed the
class test. -/
theorem tryMatchField_ty {fuel : Nat} {s : Str} {m : Str × Str × Str}
    {rest : Str} (h : tryMatchField fuel s = some (m, rest)) :
    ∀ c ∈ m.2.2, pTy c = true := by
  unfold tryMatchField at h
  split at h
  dsimp only at h
  split at h
  · split at h
    · exact absurd h (by simp)
    · split at h
      · exact absurd h (by simp)
      · split at h
        · split at h
          · split at h
            · rename_i hdrop
              simp only [Option.some.injEq, Prod.mk.injEq] at h
              obtain ⟨hm, _⟩ := h
              subst hm
              intro c' hc'
              simp only [List.mem_singleton] at hc'
              subst hc'
              have hq := dropWhile_head_false hdrop
              simpa using hq
            · exact absurd h (by simp)
          · simp only [Option.some.injEq, Prod.mk.injEq] at h
            obtain ⟨hm, _⟩ := h
            subst hm
            intro c hc
            exact List.mem_takeWhile_imp hc
        · exact absurd h (by simp)
  · exact absurd h (by simp)

/-- Every type capture produced by the field scan is `[^,\n]`-only. -/
theorem scanFields_ty (fuel : Nat) (s : Str) :
    ∀ m ∈ scanFields fuel s, ∀ c ∈ m.2.2, pTy c = true := by
  induction fuel generalizing s with
  | zero => intro m hm; simp [scanFields] at hm
  | succ fuel ih =>
    intro m hm
    simp only [scanFields] at hm
    cases htm : tryMatchField (s.length + 1) s with
    | some mr =>
      obtain ⟨m0, rest⟩ := mr
      rw [htm] at hm
      rcases List.mem_cons.1 hm with rfl | hm
      · exact tryMatchField_ty htm
      · exact ih rest m hm
    | none =>
      rw [htm] at hm
      cases s with
      | nil => simp at hm
      | cons c t => exact ih t m hm

/-- Characters survive stripping: `rstripComma (pyStrip l)` is a sublist
of `l`. -/
theorem rstrip_pyStrip_sublist (l : Str) :
    (rstripComma (pyStrip l)).Sublist l :=
  (rstripComma_sublist _).trans (pyStrip_sublist _)

theorem contains_eq_false_of_all {l : Str} {a : Char}
    (h : ∀ c ∈ l, pTy c = true) (ha : pTy a = false) :
    l.contains a = false := by
  cases hc : l.contains a with
  | false => rfl
  | true =>
    have hmem : a ∈ l := List.mem_of_elem_eq_true hc
    rw [h a hmem] at ha
    exact absurd ha (by simp)

/-- C10: every extracted FieldRecord's declared type contains no comma
and no newline — the type group stops at the class `[^,\n]` and the
subsequent strip operations only remove characters — and a written type
with a top-level comma is truncated at the first comma, as on the input
`pub x: (u8, u16)` whose captured type is `(u8`. -/
theorem extract_fields_no_comma_newline :
    (∀ t fl, extract_fields t = .ok fl →
       ∀ f ∈ fl, f.2.1.contains ',' = false ∧ f.2.1.contains '\n' = false) ∧
    extract_fields (lit "pub x: (u8, u16)") = .ok [(lit "x", lit "(u8", [])] := by
  constructor
  · intro t fl h f hf
    obtain ⟨x, hx, hgx⟩ := mapME_ok_mem _ _ _ h f hf
    obtain ⟨d, hd⟩ := clean_doc_comment_never_fails x.1
    simp only [hd, bind, Except.bind, pure, Except.pure, Except.ok.injEq] at hgx
    have hall : ∀ c ∈ x.2.2, pTy c = true := scanFields_ty _ _ x hx
    have hsub := rstrip_pyStrip_sublist x.2.2
    have hall' : ∀ c ∈ rstripComma (pyStrip x.2.2), pTy c = true :=
      fun c hc => hall c (hsub.mem hc)
    have hf21 : f.2.1 = rstripComma (pyStrip x.2.2) := by
      rw [← hgx]
    rw [hf21]
    exact ⟨contains_eq_false_of_all hall' (by decide),
           contains_eq_false_of_all hall' (by decide)⟩
  · rfl

/-- Witness for C10 at the concrete input `pub x: (u8, u16)`. -/
theorem extract_fields_no_comma_newline_witness :
    (lit "(u8").contains ',' = false ∧ (lit "(u8").contains '\n' = false :=
  extract_fields_no_comma_newline.1 (lit "pub x: (u8, u16)")
    [(lit "x", lit "(u8", [])] extract_fields_no_comma_newline.2
    (lit "x", lit "(u8", []) (by simp)

/-! ## Never-throw lemmas for the record builders (groundwork for C9) -/

theorem splitColonOnce_two_of_contains (s : Str) (h : s.contains ':' = true) :
    ∃ a b, splitColonOnce s = [a, b] := by
  induction s with
  | nil => simp at h
  | cons c t ih =>
    rw [splitColonOnce]
    by_cases hc : c = ':'
    · exact ⟨[], t, by simp [hc]⟩
    · simp only [if_neg hc]
      have hmem : t.contains ':' = true := by
        have : (':' : Char) ∈ c :: t := List.mem_of_elem_eq_true h
        rcases List.mem_cons.1 this with h1 | h1
        · exact absurd h1.symm hc
        · exact List.elem_eq_true_of_mem h1
      obtain ⟨a, b, hab⟩ := ih hmem
      exact ⟨c :: a, b, by rw [hab]⟩

theorem processParam_never_fails (p : Str) : ∃ r, processParam p = .ok r := by
  unfold processParam
  by_cases hc : ':' ∈ pyStrip p
  · have hcb : (pyStrip p).contains ':' = true := List.elem_eq_true_of_mem hc
    obtain ⟨a, b, hab⟩ := splitColonOnce_two_of_contains _ hcb
    simp only [hcb, hab, destructure2, bind, Except.bind, if_pos]
    by_cases hm : lit "mut " <+: pyStrip a
    · have hlen : 4 ≤ (pyStrip a).length := by simpa [lit] using hm.length_le
      by_cases ha : lit "&" <+: (pyStrip a).drop 4
      · have hlen1 : 1 ≤ (pyStrip a).length - 4 := by
          have := ha.length_le
          simp [lit] at this
          omega
        simp [hm, ha, sliceFrom, hlen, hlen1, pure, Except.pure]
      · simp [hm, ha, sliceFrom, hlen, pure, Except.pure]
    · by_cases ha : lit "&" <+: pyStrip a
      · have hlen1 : 1 ≤ (pyStrip a).length := by simpa [lit] using ha.length_le
        simp [hm, ha, sliceFrom, hlen1, pure, Except.pure]
      · simp [hm, ha, pure, Except.pure]
  · simp [hc, pure, Except.pure]

theorem processParams_never_fails (ps : List Str) :
    ∃ r, processParams ps = .ok r := by
  induction ps with
  | nil => exact ⟨[], rfl⟩
  | cons p ps ih =>
    obtain ⟨r, hr⟩ := processParam_never_fails p
    obtain ⟨rs, hrs⟩ := ih
    cases r with
    | none => exact ⟨rs, by simp [processParams, hr, hrs, bind, Except.bind]⟩
    | some pr =>
      exact ⟨pr :: rs, by simp [processParams, hr, hrs, bind, Except.bind]⟩

theorem extract_parameters_never_fails (s : Str) :
    ∃ r, extract_parameters s = .ok r := by
  unfold extract_parameters
  by_cases he : pyStrip s = []
  · exact ⟨[], by simp [he, pure, Except.pure]⟩
  · obtain ⟨r, hr⟩ := processParams_never_fails (splitComma s)
    exact ⟨r, by simp [he, hr, bind, Except.bind, pure, Except.pure]⟩

theorem mapME_never_fails {α β : Type} (g : α → Except String β) (l : List α)
    (hg : ∀ x ∈ l, ∃ y, g x = .ok y) : ∃ r, mapME g l = .ok r := by
  induction l with
  | nil => exact ⟨[], rfl⟩
  | cons x xs ih =>
    obtain ⟨y, hy⟩ := hg x (List.mem_cons_self x xs)
    obtain ⟨ys, hys⟩ := ih (fun z hz => hg z (List.mem_cons_of_mem x hz))
    exact ⟨y :: ys, by simp [mapME, hy, hys, bind, Except.bind, pure, Except.pure]⟩

theorem extract_fields_never_fails (t : Str) :
    ∃ r, extract_fields t = .ok r := by
  unfold extract_fields
  apply mapME_never_fails
  intro m hm
  obtain ⟨d, hd⟩ := clean_doc_comment_never_fails m.1
  exact ⟨(m.2.1, rstripComma (pyStrip m.2.2), d),
    by simp [hd, bind, Except.bind, pure, Except.pure]⟩

/-! ## Claim C4: names of extracted records -/

/-- A nonempty character list makes a nonempty `String`. -/
theorem mk_ne_empty {l : Str} (h : l ≠ []) : String.mk l ≠ "" := by
  intro he
  apply h
  have hd := congrArg String.data he
  simpa using hd

/-- A successful function match always captures a nonempty name (the
`\w+` group with its emptiness guard). -/
theorem tryMatchFunc_name {fuel : Nat} {s : Str} {raw : FuncRaw} {rest : Str}
    (h : tryMatchFunc fuel s = some (raw, rest)) : raw.name ≠ [] := by
  unfold tryMatchFunc at h
  split at h
  dsimp only at h
  repeat' split at h
  all_goals try (apply absurd h; simp; done)
  all_goals
    simp only [Option.some.injEq, Prod.mk.injEq] at h
    obtain ⟨hraw, hrest⟩ := h
    subst hraw
    assumption

/-- Every raw function match of the scan has a nonempty name. -/
theorem scanFunc_name (fuel : Nat) (s : Str) (nl : Nat) :
    ∀ m ∈ scanFunc fuel s nl, m.1.name ≠ [] := by
  induction fuel generalizing s nl with
  | zero => intro m hm; simp [scanFunc] at hm
  | succ fuel ih =>
    intro m hm
    simp only [scanFunc] at hm
    cases htm : tryMatchFunc (s.length + 1) s with
    | some mr =>
      obtain ⟨raw, rest⟩ := mr
      rw [htm] at hm
      rcases List.mem_cons.1 hm with rfl | hm
      · exact tryMatchFunc_name htm
      · exact ih rest _ m hm
    | none =>
      rw [htm] at hm
      cases s with
      | nil => simp at hm
      | cons c t => exact ih t _ m hm

/-- A successful field match always captures a nonempty name. -/
theorem tryMatchField_name {fuel : Nat} {s : Str} {m : Str × Str × Str}
    {rest : Str} (h : tryMatchField fuel s = some (m, rest)) : m.2.1 ≠ [] := by
  unfold tryMatchField at h
  split at h
  dsimp only at h
  repeat' split at h
  all_goals try (apply absurd h; simp; done)
  all_goals
    simp only [Option.some.injEq, Prod.mk.injEq] at h
    obtain ⟨hm, hrest⟩ := h
    subst hm
    assumption

/-- Every field name produced by the field scan is nonempty. -/
theorem scanFields_name (fuel : Nat) (s : Str) :
    ∀ m ∈ scanFields fuel s, m.2.1 ≠ [] := by
  induction fuel generalizing s with
  | zero => intro m hm; simp [scanFields] at hm
  | succ fuel ih =>
    intro m hm
    simp only [scanFields] at hm
    cases htm : tryMatchField (s.length + 1) s with
    | some mr =>
      obtain ⟨m0, rest⟩ := mr
      rw [htm] at hm
      rcases List.mem_cons.1 hm with rfl | hm
      · exact tryMatchField_name htm
      · exact ih rest m hm
    | none =>
      rw [htm] at hm
      cases s with
      | nil => simp at hm
      | cons c t => exact ih t m hm

/-- Every extracted field triple has a nonempty name. -/
theorem extract_fields_names (t : Str) (fl : List (Str × Str × Str))
    (h : extract_fields t = .ok fl) : ∀ f ∈ fl, f.1 ≠ [] := by
  intro f hf
  obtain ⟨x, hx, hgx⟩ := mapME_ok_mem _ _ _ h f hf
  obtain ⟨d, hd⟩ := clean_doc_comment_never_fails x.1
  simp only [hd, bind, Except.bind, pure, Except.pure, Except.ok.injEq] at hgx
  have hn := scanFields_name _ _ x hx
  rw [← hgx]
  exact hn

/-- The deterministic tail of the struct pattern always captures a
nonempty name. -/
theorem matchStructTail_name {text : Str} {a : Nat} {name flds : Str}
    {e : Nat} (h : matchStructTail text a = some (name, flds, e)) :
    name ≠ [] := by
  unfold matchStructTail at h
  dsimp only at h
  repeat' split at h
  all_goals try (apply absurd h; simp; done)
  all_goals
    simp only [Option.some.injEq, Prod.mk.injEq] at h
    obtain ⟨hn, hrest⟩ := h
    subst hn
    assumption

/-- A successful struct match has a nonempty name. -/
theorem matchStructAt_name {text : Str} {p : Nat} {raw : StructRaw}
    (h : matchStructAt text p = some raw) : raw.name ≠ [] := by
  unfold matchStructAt at h
  obtain ⟨d, _, hd⟩ := List.exists_of_findSome?_eq_some h
  obtain ⟨a, _, ha⟩ := List.exists_of_findSome?_eq_some hd
  cases ht : matchStructTail text a with
  | none => rw [ht] at ha; exact absurd ha (by simp)
  | some r =>
    rw [ht] at ha
    obtain ⟨name, flds, e⟩ := r
    simp only [Option.some.injEq] at ha
    have hn := matchStructTail_name ht
    rw [← ha]
    exact hn

/-- Every raw struct match of the scan has a nonempty name. -/
theorem scanStructs_name (text : Str) (fuel : Nat) (p : Nat) :
    ∀ raw ∈ scanStructs text fuel p, raw.name ≠ [] := by
  induction fuel generalizing p with
  | zero => intro raw hr; simp [scanStructs] at hr
  | succ fuel ih =>
    intro raw hr
    simp only [scanStructs] at hr
    cases hms : matchStructAt text p with
    | some raw0 =>
      rw [hms] at hr
      rcases List.mem_cons.1 hr with rfl | hr
      · exact matchStructAt_name hms
      · exact ih _ raw hr
    | none =>
      rw [hms] at hr
      by_cases hp : p < text.length
      · rw [if_pos hp] at hr
        exact ih _ raw hr
      · rw [if_neg hp] at hr
        simp at hr

/-- C4 counterexample: the malformed parameter text `: u8` yields an
extracted FunctionRecord whose parameters list contains an entry with an
empty name (the text before the colon strips to nothing). -/
theorem parameter_name_empty_counterexample :
    extract_functions (lit "pub fn f(: u8) \x7b\x7d") "lib.rs" =
      .ok [⟨"f", "", "fn f(: u8) -> ()", "lib.rs", 1, true, [("", "u8")], "()"⟩] :=
  rfl

/-- C4, amended: every extracted Declaration (struct or function) has a
non-empty name and every field entry has a non-empty name, because the
`\w+` name groups must match at least one character; the parameters list
of a FunctionRecord, however, can contain an entry whose name is the
empty string when the text before a colon strips to nothing. -/
theorem extracted_names_nonempty (content : Str) (path : String) :
    (∀ ss, extract_structs content path = .ok ss → ∀ s ∈ ss,
        s.name ≠ "" ∧ ∀ f ∈ s.fields, f.1 ≠ "") ∧
    (∀ fs, extract_functions content path = .ok fs → ∀ f ∈ fs, f.name ≠ "") := by
  constructor
  · intro ss hss s hs
    obtain ⟨raw, hraw, hmk⟩ := mapME_ok_mem _ _ _ hss s hs
    unfold mkStructInfo at hmk
    obtain ⟨d, hd⟩ := clean_doc_comment_never_fails raw.doc
    obtain ⟨flds, hflds⟩ := by
      have := extract_fields_never_fails raw.fields
      exact this
    simp only [hd, hflds, bind, Except.bind, pure, Except.pure,
      Except.ok.injEq] at hmk
    constructor
    · rw [← hmk]
      exact mk_ne_empty (scanStructs_name content _ 0 raw hraw)
    · intro f hf
      rw [← hmk] at hf
      simp only [List.mem_map] at hf
      obtain ⟨x, hx, hxf⟩ := hf
      rw [← hxf]
      exact mk_ne_empty (extract_fields_names raw.fields flds hflds x hx)
  · intro fs hfs f hf
    obtain ⟨rl, hrl, hmk⟩ := mapME_ok_mem _ _ _ hfs f hf
    unfold mkFunctionInfo at hmk
    obtain ⟨d, hd⟩ := clean_doc_comment_never_fails rl.1.doc
    obtain ⟨ps, hps⟩ := extract_parameters_never_fails rl.1.params
    simp only [hd, hps, bind, Except.bind, pure, Except.pure,
      Except.ok.injEq] at hmk
    rw [← hmk]
    exact mk_ne_empty (scanFunc_name _ content 0 rl hrl)

/-- Witness for the amended C4 on the concrete text
`pub struct A { pub x: u8 } pub fn g(y: u8) {}`. -/
theorem extracted_names_nonempty_witness :
    structAExample.name ≠ "" ∧
    (("x", "u8", "") : String × String × String).1 ≠ "" ∧
    funcGExample.name ≠ "" := by
  have h := extracted_names_nonempty
    (lit "pub struct A \x7b pub x: u8 \x7d pub fn g(y: u8) \x7b\x7d") "w.rs"
  refine ⟨?_, ?_, ?_⟩
  · exact (h.1 [structAExample] rfl structAExample (by simp)).1
  · exact (h.1 [structAExample] rfl structAExample (by simp)).2
      ("x", "u8", "") (by simp [structAExample])
  · exact h.2 [funcGExample] rfl funcGExample (by simp)

/-! ## Claim C9: extraction terminates and never throws -/

theorem mkStructInfo_never_fails (path : String) (content : Str) (m : StructRaw) :
    ∃ r, mkStructInfo path content m = .ok r := by
  obtain ⟨d, hd⟩ := clean_doc_comment_never_fails m.doc
  obtain ⟨fl, hfl⟩ := extract_fields_never_fails m.fields
  cases he : mkStructInfo path content m with
  | ok r => exact ⟨r, rfl⟩
  | error err =>
    unfold mkStructInfo at he
    simp [hd, hfl, bind, Except.bind, pure, Except.pure] at he

theorem mkFunctionInfo_never_fails (path : String) (raw : FuncRaw) (line : Nat) :
    ∃ r, mkFunctionInfo path raw line = .ok r := by
  obtain ⟨d, hd⟩ := clean_doc_comment_never_fails raw.doc
  obtain ⟨ps, hps⟩ := extract_parameters_never_fails raw.params
  cases he : mkFunctionInfo path raw line with
  | ok r => exact ⟨r, rfl⟩
  | error err =>
    unfold mkFunctionInfo at he
    simp [hd, hps, bind, Except.bind, pure, Except.pure] at he

/-- C9: on every input text both extraction scans return a result: every
Python operation with a precondition (the guarded slices of the comment
cleaner and parameter splitter, the two-way destructuring of
`split(':', 1)`) is reached only with its guard established, so a
non-matching region contributes no record rather than a failure, and the
scans are total functions of the text. -/
theorem extraction_never_throws (content : Str) (path : String) :
    (∃ ss, extract_structs content path = .ok ss) ∧
    (∃ fs, extract_functions content path = .ok fs) := by
  constructor
  · exact mapME_never_fails _ _ (fun m _ => mkStructInfo_never_fails path content m)
  · exact mapME_never_fails _ _
      (fun rl _ => mkFunctionInfo_never_fails path rl.1 rl.2)

/-! ## Claims C5 and C6: the function reference filters, groups and sorts -/

/-- Appending a function to its group only adds that one function to the
flattened contents. -/
theorem flatten_addToGroup (acc : List (String × List FunctionInfo))
    (k : String) (f : FunctionInfo) :
    ((addToGroup acc k f).map Prod.snd).flatten ~
      ((acc.map Prod.snd).flatten) ++ [f] := by
  induction acc with
  | nil => simp [addToGroup]
  | cons q rest ih =>
    obtain ⟨k', g⟩ := q
    rw [addToGroup]
    by_cases hk : k' = k
    · simp only [if_pos hk, List.map_cons, List.flatten_cons]
      calc (g ++ [f]) ++ ((rest.map Prod.snd).flatten)
          = g ++ ([f] ++ (rest.map Prod.snd).flatten) := by
            rw [List.append_assoc]
        _ ~ g ++ ((rest.map Prod.snd).flatten ++ [f]) :=
            List.Perm.append_left g List.perm_append_comm
        _ = (g ++ (rest.map Prod.snd).flatten) ++ [f] := by
            rw [List.append_assoc]
    · simp only [if_neg hk, List.map_cons, List.flatten_cons]
      calc g ++ ((addToGroup rest k f).map Prod.snd).flatten
          ~ g ++ (((rest.map Prod.snd).flatten) ++ [f]) :=
            List.Perm.append_left g ih
        _ = (g ++ (rest.map Prod.snd).flatten) ++ [f] := by
            rw [List.append_assoc]

/-- Grouping permutes: the flattened groups are a permutation of the
grouped records. -/
theorem flatten_foldl_group (l : List FunctionInfo)
    (acc : List (String × List FunctionInfo)) :
    (((l.foldl (fun acc f => addToGroup acc f.file_path f) acc)).map
        Prod.snd).flatten ~
      ((acc.map Prod.snd).flatten) ++ l := by
  induction l generalizing acc with
  | nil => simp
  | cons f t ih =>
    simp only [List.foldl_cons]
    calc (((t.foldl (fun acc f => addToGroup acc f.file_path f)
            (addToGroup acc f.file_path f))).map Prod.snd).flatten
        ~ (((addToGroup acc f.file_path f).map Prod.snd).flatten) ++ t :=
          ih _
      _ ~ ((((acc.map Prod.snd).flatten) ++ [f]) ++ t) :=
          (flatten_addToGroup acc f.file_path f).append_right t
      _ = ((acc.map Prod.snd).flatten) ++ (f :: t) := by simp

theorem flatten_groupByFile (fs : List FunctionInfo) :
    ((groupByFile fs).map Prod.snd).flatten ~ fs := by
  have h := flatten_foldl_group fs []
  simpa [groupByFile] using h

/-- The keys after adding one function: unchanged when the key is
already present, extended by the key otherwise. -/
theorem keys_addToGroup (acc : List (String × List FunctionInfo))
    (k : String) (f : FunctionInfo) :
    (addToGroup acc k f).map Prod.fst =
      if k ∈ acc.map Prod.fst then acc.map Prod.fst
      else acc.map Prod.fst ++ [k] := by
  induction acc with
  | nil => simp [addToGroup]
  | cons q rest ih =>
    obtain ⟨k', g⟩ := q
    rw [addToGroup]
    by_cases hk : k' = k
    · subst hk
      simp
    · simp only [if_neg hk, List.map_cons, ih, List.mem_cons]
      by_cases hmem : k ∈ rest.map Prod.fst
      · simp [hmem, Ne.symm hk]
      · simp [hmem, Ne.symm hk]

theorem nodup_keys_foldl (l : List FunctionInfo)
    (acc : List (String × List FunctionInfo))
    (h : (acc.map Prod.fst).Nodup) :
    (((l.foldl (fun acc f => addToGroup acc f.file_path f) acc)).map
        Prod.fst).Nodup := by
  induction l generalizing acc with
  | nil => simpa
  | cons f t ih =>
    simp only [List.foldl_cons]
    apply ih
    rw [keys_addToGroup]
    by_cases hmem : f.file_path ∈ acc.map Prod.fst
    · simpa [hmem]
    · simp only [hmem, if_neg, not_false_eq_true]
      exact List.Nodup.append h (List.nodup_singleton _)
        (fun x hx hxk => by
          simp only [List.mem_singleton] at hxk
          subst hxk
          exact hmem hx)

theorem nodup_keys_groupByFile (fs : List FunctionInfo) :
    ((groupByFile fs).map Prod.fst).Nodup :=
  nodup_keys_foldl fs [] (by simp)

/-- Membership after adding one function, assuming distinct keys: the
entry for the added key was either updated or created, every other entry
is untouched. -/
theorem mem_addToGroup {acc : List (String × List FunctionInfo)}
    {k p : String} {f : FunctionInfo} {g : List FunctionInfo}
    (hnd : (acc.map Prod.fst).Nodup) (h : (p, g) ∈ addToGroup acc k f) :
    (p = k ∧ ∃ g0, (k, g0) ∈ acc ∧ g = g0 ++ [f])
    ∨ (p = k ∧ k ∉ acc.map Prod.fst ∧ g = [f])
    ∨ (p ≠ k ∧ (p, g) ∈ acc) := by
  induction acc with
  | nil =>
    simp only [addToGroup, List.mem_singleton, Prod.mk.injEq] at h
    exact Or.inr (Or.inl ⟨h.1, by simp, h.2⟩)
  | cons q rest ih =>
    obtain ⟨k', g'⟩ := q
    simp only [List.map_cons, List.nodup_cons] at hnd
    obtain ⟨hk'nd, hndrest⟩ := hnd
    rw [addToGroup] at h
    by_cases hk : k' = k
    · subst hk
      simp only [if_pos rfl] at h
      rcases List.mem_cons.1 h with heq | hmem
      · simp only [Prod.mk.injEq] at heq
        exact Or.inl ⟨heq.1, g', List.mem_cons_self _ _, heq.2⟩
      · have hpk : p ≠ k' := by
          intro hpe
          subst hpe
          exact hk'nd (by
            have : p ∈ rest.map Prod.fst := by
              exact List.mem_map.2 ⟨(p, g), hmem, rfl⟩
            exact this)
        exact Or.inr (Or.inr ⟨hpk, List.mem_cons_of_mem _ hmem⟩)
    · simp only [if_neg hk] at h
      rcases List.mem_cons.1 h with heq | hmem
      · simp only [Prod.mk.injEq] at heq
        refine Or.inr (Or.inr ⟨?_, ?_⟩)
        · exact fun he => hk (heq.1.symm.trans he)
        · exact List.mem_cons.2 (Or.inl (by rw [heq.1, heq.2]))
      · rcases ih hndrest hmem with ⟨hp, g0, hg0, hge⟩ | ⟨hp, hnk, hge⟩ | ⟨hp, hm⟩
        · exact Or.inl ⟨hp, g0, List.mem_cons_of_mem _ hg0, hge⟩
        · refine Or.inr (Or.inl ⟨hp, ?_, hge⟩)
          simp only [List.map_cons, List.mem_cons]
          rintro (he | he)
          · first
            | exact hk he
            | exact hk he.symm
          · exact hnk he
        · exact Or.inr (Or.inr ⟨hp, List.mem_cons_of_mem _ hm⟩)

theorem groupByFile_snoc (fs : List FunctionInfo) (f : FunctionInfo) :
    groupByFile (fs ++ [f]) = addToGroup (groupByFile fs) f.file_path f := by
  simp [groupByFile, List.foldl_append]

/-- The `by_file` dict: every group is exactly the filter of its key, in
input order, and every record's path has a group. -/
theorem groupByFile_spec (fs : List FunctionInfo) :
    (∀ p g, (p, g) ∈ groupByFile fs →
      g = fs.filter (fun x => x.file_path = p))
    ∧ ∀ f ∈ fs, f.file_path ∈ (groupByFile fs).map Prod.fst := by
  induction fs using List.reverseRecOn with
  | nil => simp [groupByFile]
  | append_singleton fs f ih =>
    obtain ⟨ihg, ihk⟩ := ih
    constructor
    · intro p g hg
      rw [groupByFile_snoc] at hg
      rcases mem_addToGroup (nodup_keys_groupByFile fs) hg with
        ⟨hp, g0, hg0, hge⟩ | ⟨hp, hnk, hge⟩ | ⟨hp, hmem⟩
      · subst hp
        have := ihg _ _ hg0
        subst this
        subst hge
        simp [List.filter_append]
      · subst hp
        subst hge
        have hempty : fs.filter (fun x => x.file_path = f.file_path) = [] := by
          rw [List.filter_eq_nil_iff]
          intro x hx hxe
          apply hnk
          have hpe : x.file_path = f.file_path := by simpa using hxe
          rw [← hpe]
          exact ihk x hx
        simp [List.filter_append, hempty]
      · have := ihg _ _ hmem
        subst this
        have hne : ¬ (f.file_path = p) := fun he => hp he.symm
        simp [List.filter_append, hne]
    · intro x hx
      rw [groupByFile_snoc, keys_addToGroup]
      rcases List.mem_append.1 hx with hx | hx
      · by_cases hmem : f.file_path ∈ (groupByFile fs).map Prod.fst
        · simpa [hmem] using ihk x hx
        · simp only [hmem, if_neg, not_false_eq_true]
          exact List.mem_append.2 (Or.inl (ihk x hx))
      · simp only [List.mem_singleton] at hx
        subst hx
        by_cases hmem : x.file_path ∈ (groupByFile fs).map Prod.fst
        · simp [hmem]
        · simp [hmem]

/-- C5: the function reference renders its fixed header, a total line
counting exactly the public input records, and then the grouped
sections; the records receiving rendered sections are a permutation of
the public input records — in particular only public records are
rendered and the rendered count equals the public count. -/
theorem generate_function_reference_public_only (functions : List FunctionInfo) :
    generate_function_reference functions =
      ["# Function Reference\n",
       "Reference documentation for all public functions in the protocol.\n",
       "Total public functions: **"
         ++ toString (functions.filter (fun f => f.is_public)).length ++ "**\n"]
      ++ ((sortedGroups (functions.filter (fun f => f.is_public))).map
          (fun g => ("## " ++ g.1 ++ "\n") :: (g.2.map functionSection).flatten)).flatten
    ∧ (renderedFuncs functions).Perm (functions.filter (fun f => f.is_public))
    ∧ ∀ f ∈ renderedFuncs functions, f.is_public = true := by
  have hperm : (renderedFuncs functions).Perm
      (functions.filter (fun f => f.is_public)) := by
    unfold renderedFuncs sortedGroups
    exact (((List.perm_insertionSort byPath _).map Prod.snd).flatten).trans
      (flatten_groupByFile _)
  refine ⟨rfl, hperm, ?_⟩
  intro f hf
  exact (List.mem_filter.1 (hperm.mem_iff.1 hf)).2

/-- Witness for C5: in a mixed collection the rendered record is public. -/
theorem generate_function_reference_public_only_witness :
    publicFnExample.is_public = true := by
  have h := generate_function_reference_public_only [privateFnTwo, publicFnExample]
  exact h.2.2 publicFnExample (h.2.1.mem_iff.2 (by decide))

/-- C6: the groups of the function reference are strictly ordered by
path — one heading per distinct source path, lexicographically — every
group holds exactly the public records of its path in original
extraction order, and every public record's path has a group. -/
theorem generate_function_reference_grouping (functions : List FunctionInfo) :
    List.Pairwise (fun a b => a.1 < b.1)
      (sortedGroups (functions.filter (fun f => f.is_public)))
    ∧ (∀ p g, (p, g) ∈ sortedGroups (functions.filter (fun f => f.is_public)) →
        g = (functions.filter (fun f => f.is_public)).filter
          (fun x => x.file_path = p))
    ∧ ∀ f ∈ functions.filter (fun f => f.is_public),
        f.file_path ∈
          (sortedGroups (functions.filter (fun f => f.is_public))).map
            Prod.fst := by
  have hperm : (sortedGroups (functions.filter (fun f => f.is_public))).Perm
      (groupByFile (functions.filter (fun f => f.is_public))) :=
    List.perm_insertionSort byPath _
  have hsorted : List.Pairwise byPath
      (sortedGroups (functions.filter (fun f => f.is_public))) :=
    List.sorted_insertionSort byPath _
  have hnodup : ((sortedGroups (functions.filter (fun f => f.is_public))).map
      Prod.fst).Nodup :=
    ((hperm.map Prod.fst).nodup_iff).2 (nodup_keys_groupByFile _)
  refine ⟨?_, ?_, ?_⟩
  · have hne : List.Pairwise (fun a b : String × List FunctionInfo => a.1 ≠ b.1)
        (sortedGroups (functions.filter (fun f => f.is_public))) := by
      rw [List.Nodup, List.pairwise_map] at hnodup
      exact hnodup
    exact (hsorted.and hne).imp (fun h => lt_of_le_of_ne h.1 h.2)
  · intro p g hg
    exact (groupByFile_spec _).1 p g (hperm.mem_iff.1 hg)
  · intro f hf
    exact ((hperm.map Prod.fst).mem_iff).2 ((groupByFile_spec _).2 f hf)

/-- Witness for C6: with extraction order `b.src` before `a.src` the
groups are strictly ordered by path and the `a.src` group is the filter
of that path. -/
theorem generate_function_reference_grouping_witness :
    List.Pairwise (fun a b => a.1 < b.1)
      (sortedGroups ([fnInB, fnInA].filter (fun f => f.is_public))) ∧
    [fnInA] = ([fnInB, fnInA].filter (fun f => f.is_public)).filter
      (fun x => x.file_path = "a.src") := by
  have h := generate_function_reference_grouping [fnInB, fnInA]
  refine ⟨h.1, ?_⟩
  refine h.2.1 "a.src" [fnInA] ?_
  have hperm := List.perm_insertionSort byPath
    (groupByFile ([fnInB, fnInA].filter (fun f => f.is_public)))
  exact hperm.mem_iff.2 (by decide)
